import Mathlib

/-!
Verification of `calculate_roth_conversion` from `RothConversionCalculator.py`.

The Python function is embedded shallowly:
* integers of the program (`current_age`, `retirement_age`, ...) become `ℤ`;
* floating-point amounts and rates become `ℚ`;
* the Python `range(a, b)` iteration becomes the list `pyRange a b`;
* the two `for` loops become structural recursions over those lists
  (`accumPhase` for the pre-retirement loop, `distribPhase` for the loop
  from `retirement_age` to 90);
* the one fallible operation, the float division
  `desired_conversion_amount / (conversion_end_age - conversion_start_age + 1)`
  (a `ZeroDivisionError` when the divisor is zero), is modelled by `Option`:
  `distribPhase` and `calculate_roth_conversion` return `none` exactly when
  that division would be reached with a zero divisor.

`convStepT` / `distribPhaseT` are the total versions of the conversion step,
used once we prove the error branch unreachable.
-/

set_option linter.unusedVariables false

/-- Integer version of the Python expression `range(a, b)`: the list
`[a, a+1, ..., b-1]`, empty when `b ≤ a`. -/
def pyRange (a b : ℤ) : List ℤ :=
  (List.range (b - a).toNat).map (fun i : ℕ => a + (i : ℤ))

/-- One year of the accumulation loop (source lines 60-61):
`current_401k += annual_contributions; current_401k *= (1 + expected_growth_rate)`. -/
def accumStep (annual_contributions expected_growth_rate : ℚ) (b : ℚ) : ℚ :=
  (b + annual_contributions) * (1 + expected_growth_rate)

/-- The accumulation loop (source lines 59-63): one iteration per age in
`range(current_age, retirement_age)`; each iteration grows the 401k balance and
appends the current 401k and Roth balances.  Returns
`(final 401k, final Roth, 401k timeline, Roth timeline)`. -/
def accumPhase (annual_contributions expected_growth_rate : ℚ) :
    List ℤ → ℚ → ℚ → ℚ × ℚ × List ℚ × List ℚ
  | [], current_401k, roth_balance => (current_401k, roth_balance, [], [])
  | _ :: rest, current_401k, roth_balance =>
      let k := accumStep annual_contributions expected_growth_rate current_401k
      let t := accumPhase annual_contributions expected_growth_rate rest k roth_balance
      (t.1, t.2.1, k :: t.2.2.1, roth_balance :: t.2.2.2)

/-- The body of the conversion branch plus the fall-through (source lines 68-89),
in the total case (divisor nonzero): when `age` lies in the conversion window,
split the desired amount over the inclusive window, clamp to the available
401k balance, tax at the current rate before retirement and the future rate at
or after it, move the gross out of the 401k and the net (clamped at 0) into the
Roth; otherwise leave both balances unchanged. -/
def convStepT (retirement_age conversion_start_age conversion_end_age : ℤ)
    (desired_conversion_amount future_tax_rate current_tax_rate : ℚ)
    (age : ℤ) (current_401k roth_balance : ℚ) : ℚ × ℚ :=
  if conversion_start_age ≤ age ∧ age ≤ conversion_end_age then
    let annual_conversion0 :=
      desired_conversion_amount /
        ((conversion_end_age - conversion_start_age + 1 : ℤ) : ℚ)
    let annual_conversion :=
      if annual_conversion0 > current_401k then current_401k else annual_conversion0
    let tax_on_conversion :=
      if age < retirement_age then annual_conversion * current_tax_rate
      else annual_conversion * future_tax_rate
    let net_converted0 := annual_conversion - tax_on_conversion
    let net_converted := if net_converted0 < 0 then 0 else net_converted0
    (current_401k - annual_conversion, roth_balance + net_converted)
  else (current_401k, roth_balance)

/-- The conversion branch with the division modelled as fallible: inside the
window, the division on source line 71 raises `ZeroDivisionError` (here:
`none`) when `conversion_end_age - conversion_start_age + 1 = 0`; otherwise
the step is `convStepT`. -/
def convStep (retirement_age conversion_start_age conversion_end_age : ℤ)
    (desired_conversion_amount future_tax_rate current_tax_rate : ℚ)
    (age : ℤ) (current_401k roth_balance : ℚ) : Option (ℚ × ℚ) :=
  if conversion_start_age ≤ age ∧ age ≤ conversion_end_age then
    if conversion_end_age - conversion_start_age + 1 = 0 then none
    else
      some (convStepT retirement_age conversion_start_age conversion_end_age
        desired_conversion_amount future_tax_rate current_tax_rate
        age current_401k roth_balance)
  else some (current_401k, roth_balance)

/-- Total version of the distribution loop (source lines 66-97): for each age,
do the conversion step, then grow both balances by `(1 + expected_growth_rate)`
and append them to the timelines. -/
def distribPhaseT (retirement_age conversion_start_age conversion_end_age : ℤ)
    (desired_conversion_amount future_tax_rate current_tax_rate
     expected_growth_rate : ℚ) :
    List ℤ → ℚ → ℚ → List ℚ × List ℚ
  | [], _, _ => ([], [])
  | age :: rest, current_401k, roth_balance =>
      let s := convStepT retirement_age conversion_start_age conversion_end_age
        desired_conversion_amount future_tax_rate current_tax_rate
        age current_401k roth_balance
      let k2 := s.1 * (1 + expected_growth_rate)
      let r2 := s.2 * (1 + expected_growth_rate)
      let t := distribPhaseT retirement_age conversion_start_age conversion_end_age
        desired_conversion_amount future_tax_rate current_tax_rate
        expected_growth_rate rest k2 r2
      (k2 :: t.1, r2 :: t.2)

/-- The distribution loop with the fallible division: propagates the
`ZeroDivisionError` of `convStep`. -/
def distribPhase (retirement_age conversion_start_age conversion_end_age : ℤ)
    (desired_conversion_amount future_tax_rate current_tax_rate
     expected_growth_rate : ℚ) :
    List ℤ → ℚ → ℚ → Option (List ℚ × List ℚ)
  | [], _, _ => some ([], [])
  | age :: rest, current_401k, roth_balance =>
      match convStep retirement_age conversion_start_age conversion_end_age
        desired_conversion_amount future_tax_rate current_tax_rate
        age current_401k roth_balance with
      | none => none
      | some s =>
        let k2 := s.1 * (1 + expected_growth_rate)
        let r2 := s.2 * (1 + expected_growth_rate)
        match distribPhase retirement_age conversion_start_age conversion_end_age
          desired_conversion_amount future_tax_rate current_tax_rate
          expected_growth_rate rest k2 r2 with
        | none => none
        | some t => some (k2 :: t.1, r2 :: t.2)

/-- Embedding of `calculate_roth_conversion` (source lines 18-99).  Returns
`some (timeline_ages, timeline_401k_balances, timeline_roth_balances)`, or
`none` when the division on line 71 would be reached with a zero divisor.
The first loop (lines 35-39) computes `future_401k_balance`, which the source
never uses; it is kept as a dead binding. -/
def calculate_roth_conversion
    (current_age retirement_age : ℤ)
    (current_401k_balance annual_contributions expected_growth_rate : ℚ)
    (annual_spending_in_retirement pension_amount : ℚ)
    (social_security_age : ℤ)
    (social_security_amount desired_conversion_amount : ℚ)
    (conversion_start_age conversion_end_age : ℤ)
    (future_tax_rate current_tax_rate : ℚ) :
    Option (List ℤ × List ℚ × List ℚ) :=
  let years_to_retirement := retirement_age - current_age
  let future_401k_balance :=
    (accumStep annual_contributions expected_growth_rate)^[years_to_retirement.toNat]
      current_401k_balance
  let timeline_ages := pyRange current_age 91
  let acc := accumPhase annual_contributions expected_growth_rate
    (pyRange current_age retirement_age) current_401k_balance 0
  match distribPhase retirement_age conversion_start_age conversion_end_age
    desired_conversion_amount future_tax_rate current_tax_rate
    expected_growth_rate (pyRange retirement_age 91) acc.1 acc.2.1 with
  | none => none
  | some d => some (timeline_ages, acc.2.2.1 ++ d.1, acc.2.2.2 ++ d.2)

/-- Conversion step as described by the spec for the distribution phase, where
the dead `current_tax_rate` branch is removed: the tax on a conversion is
always `annual_conversion * future_tax_rate`. -/
def convStepFutureOnly (conversion_start_age conversion_end_age : ℤ)
    (desired_conversion_amount future_tax_rate : ℚ)
    (age : ℤ) (current_401k roth_balance : ℚ) : Option (ℚ × ℚ) :=
  if conversion_start_age ≤ age ∧ age ≤ conversion_end_age then
    if conversion_end_age - conversion_start_age + 1 = 0 then none
    else
      let annual_conversion0 :=
        desired_conversion_amount /
          ((conversion_end_age - conversion_start_age + 1 : ℤ) : ℚ)
      let annual_conversion :=
        if annual_conversion0 > current_401k then current_401k else annual_conversion0
      let tax_on_conversion := annual_conversion * future_tax_rate
      let net_converted0 := annual_conversion - tax_on_conversion
      let net_converted := if net_converted0 < 0 then 0 else net_converted0
      some (current_401k - annual_conversion, roth_balance + net_converted)
  else some (current_401k, roth_balance)

/-- Distribution loop built on `convStepFutureOnly`: no reference to
`current_tax_rate` anywhere. -/
def distribPhaseFutureOnly (conversion_start_age conversion_end_age : ℤ)
    (desired_conversion_amount future_tax_rate expected_growth_rate : ℚ) :
    List ℤ → ℚ → ℚ → Option (List ℚ × List ℚ)
  | [], _, _ => some ([], [])
  | age :: rest, current_401k, roth_balance =>
      match convStepFutureOnly conversion_start_age conversion_end_age
        desired_conversion_amount future_tax_rate age current_401k roth_balance with
      | none => none
      | some s =>
        let k2 := s.1 * (1 + expected_growth_rate)
        let r2 := s.2 * (1 + expected_growth_rate)
        match distribPhaseFutureOnly conversion_start_age conversion_end_age
          desired_conversion_amount future_tax_rate expected_growth_rate
          rest k2 r2 with
        | none => none
        | some t => some (k2 :: t.1, r2 :: t.2)

/-- Variant of `calculate_roth_conversion` following the spec's reading of the
distribution phase: since that phase only runs at or after `retirement_age`,
the tax is always taken at `future_tax_rate`, and `current_tax_rate` is not a
parameter at all. -/
def calculate_roth_conversion_future_only
    (current_age retirement_age : ℤ)
    (current_401k_balance annual_contributions expected_growth_rate : ℚ)
    (annual_spending_in_retirement pension_amount : ℚ)
    (social_security_age : ℤ)
    (social_security_amount desired_conversion_amount : ℚ)
    (conversion_start_age conversion_end_age : ℤ)
    (future_tax_rate : ℚ) :
    Option (List ℤ × List ℚ × List ℚ) :=
  let timeline_ages := pyRange current_age 91
  let acc := accumPhase annual_contributions expected_growth_rate
    (pyRange current_age retirement_age) current_401k_balance 0
  match distribPhaseFutureOnly conversion_start_age conversion_end_age
    desired_conversion_amount future_tax_rate
    expected_growth_rate (pyRange retirement_age 91) acc.1 acc.2.1 with
  | none => none
  | some d => some (timeline_ages, acc.2.2.1 ++ d.1, acc.2.2.2 ++ d.2)

/-! ### Basic facts about `pyRange` -/

theorem pyRange_length (a b : ℤ) : (pyRange a b).length = (b - a).toNat := by
  simp only [pyRange, List.length_map, List.length_range]

theorem pyRange_getElem? (a b : ℤ) (i : ℕ) (h : i < (b - a).toNat) :
    (pyRange a b)[i]? = some (a + (i : ℤ)) := by
  rw [pyRange, List.getElem?_map, List.getElem?_range h]
  rfl

theorem mem_pyRange {a b x : ℤ} : x ∈ pyRange a b ↔ a ≤ x ∧ x < b := by
  constructor
  · intro hx
    simp only [pyRange] at hx
    rcases List.mem_map.mp hx with ⟨i, hi, rfl⟩
    rw [List.mem_range] at hi
    omega
  · rintro ⟨h1, h2⟩
    simp only [pyRange]
    refine List.mem_map.mpr ⟨(x - a).toNat, ?_, ?_⟩
    · rw [List.mem_range]; omega
    · omega

/-! ### Characterization of the accumulation loop -/

theorem accumPhase_eq (c g : ℚ) (l : List ℤ) (k r : ℚ) :
    accumPhase c g l k r =
      ((accumStep c g)^[l.length] k, r,
       (List.range l.length).map (fun i => (accumStep c g)^[i + 1] k),
       List.replicate l.length r) := by
  induction l generalizing k with
  | nil => simp [accumPhase]
  | cons a rest ih =>
      simp only [accumPhase, ih, List.length_cons, List.replicate_succ]
      refine Prod.ext ?_ (Prod.ext rfl (Prod.ext ?_ rfl))
      · simp [Function.iterate_succ_apply]
      · simp only [List.range_succ_eq_map, List.map_cons, List.map_map]
        refine List.cons_eq_cons.mpr ⟨by simp, ?_⟩
        refine List.map_congr_left ?_
        intro i _
        simp [Function.comp, Function.iterate_succ_apply]

/-! ### The division-by-zero branch is unreachable -/

theorem convStep_eq_someT (ra csa cea : ℤ) (dca ftr ctr : ℚ) (age : ℤ) (k r : ℚ) :
    convStep ra csa cea dca ftr ctr age k r =
      some (convStepT ra csa cea dca ftr ctr age k r) := by
  by_cases hw : csa ≤ age ∧ age ≤ cea
  · have hd : ¬(cea - csa + 1 = 0) := by omega
    simp [convStep, hw, hd]
  · simp [convStep, convStepT, hw]

theorem distribPhase_eq (ra csa cea : ℤ) (dca ftr ctr g : ℚ) (l : List ℤ) (k r : ℚ) :
    distribPhase ra csa cea dca ftr ctr g l k r =
      some (distribPhaseT ra csa cea dca ftr ctr g l k r) := by
  induction l generalizing k r with
  | nil => rfl
  | cons a rest ih =>
      simp only [distribPhase, convStep_eq_someT, ih, distribPhaseT]

/-! ### Characterization of the whole computation in terms of the total phases -/

theorem calculate_roth_conversion_eq
    (ca ra : ℤ) (bal c g asr pa : ℚ) (ssa : ℤ) (ssam dca : ℚ)
    (csa cea : ℤ) (ftr ctr : ℚ) :
    calculate_roth_conversion ca ra bal c g asr pa ssa ssam dca csa cea ftr ctr =
      some (pyRange ca 91,
        ((List.range (ra - ca).toNat).map
          (fun i => (accumStep c g)^[i + 1] bal)) ++
          (distribPhaseT ra csa cea dca ftr ctr g (pyRange ra 91)
            ((accumStep c g)^[(ra - ca).toNat] bal) 0).1,
        (List.replicate (ra - ca).toNat (0 : ℚ)) ++
          (distribPhaseT ra csa cea dca ftr ctr g (pyRange ra 91)
            ((accumStep c g)^[(ra - ca).toNat] bal) 0).2) := by
  simp only [calculate_roth_conversion, accumPhase_eq, pyRange_length, distribPhase_eq]

theorem distribPhaseT_length_fst (ra csa cea : ℤ) (dca ftr ctr g : ℚ)
    (l : List ℤ) (k r : ℚ) :
    (distribPhaseT ra csa cea dca ftr ctr g l k r).1.length = l.length := by
  induction l generalizing k r with
  | nil => rfl
  | cons a rest ih => simp [distribPhaseT, ih]

theorem distribPhaseT_length_snd (ra csa cea : ℤ) (dca ftr ctr g : ℚ)
    (l : List ℤ) (k r : ℚ) :
    (distribPhaseT ra csa cea dca ftr ctr g l k r).2.length = l.length := by
  induction l generalizing k r with
  | nil => rfl
  | cons a rest ih => simp [distribPhaseT, ih]

/-! ### Step-level facts about the conversion step -/

theorem convStepT_fst_nonneg (ra csa cea : ℤ) (dca ftr ctr : ℚ) (age : ℤ)
    {k : ℚ} (r : ℚ) (hk : 0 ≤ k) :
    0 ≤ (convStepT ra csa cea dca ftr ctr age k r).1 := by
  simp only [convStepT]
  split_ifs with hw hc <;> simp only <;> linarith

theorem convStepT_snd_ge (ra csa cea : ℤ) (dca ftr ctr : ℚ) (age : ℤ) (k r : ℚ) :
    r ≤ (convStepT ra csa cea dca ftr ctr age k r).2 := by
  simp only [convStepT]
  split_ifs with hw hc h1 h2 h3 h4 <;> simp only <;> linarith

theorem convStepT_nowindow (ra csa cea : ℤ) (dca ftr ctr : ℚ) (age : ℤ) (k r : ℚ)
    (h : ¬(csa ≤ age ∧ age ≤ cea)) :
    convStepT ra csa cea dca ftr ctr age k r = (k, r) := by
  simp only [convStepT, if_neg h]

theorem convStepT_dca_zero (ra csa cea : ℤ) (ftr ctr : ℚ) (age : ℤ) (k r : ℚ)
    (hk : 0 ≤ k) :
    convStepT ra csa cea 0 ftr ctr age k r = (k, r) := by
  simp only [convStepT, zero_div]
  split_ifs with hw hc h1 h2 h3 h4 <;> simp_all <;> linarith

/-! ### Invariants of the distribution loop -/

theorem distribPhaseT_fst_nonneg (ra csa cea : ℤ) (dca ftr ctr g : ℚ)
    (hg : 0 ≤ g) (l : List ℤ) :
    ∀ k r : ℚ, 0 ≤ k →
      ∀ x ∈ (distribPhaseT ra csa cea dca ftr ctr g l k r).1, 0 ≤ x := by
  induction l with
  | nil => intro k r _ x hx; simp [distribPhaseT] at hx
  | cons a rest ih =>
      intro k r hk x hx
      simp only [distribPhaseT, List.mem_cons] at hx
      have hk2 : 0 ≤ (convStepT ra csa cea dca ftr ctr a k r).1 * (1 + g) :=
        mul_nonneg (convStepT_fst_nonneg ra csa cea dca ftr ctr a r hk) (by linarith)
      rcases hx with rfl | hx
      · exact hk2
      · exact ih _ _ hk2 x hx

theorem distribPhaseT_snd_chain (ra csa cea : ℤ) (dca ftr ctr g : ℚ)
    (hg : 0 ≤ g) (l : List ℤ) :
    ∀ k r : ℚ, 0 ≤ r →
      List.Chain' (· ≤ ·) (r :: (distribPhaseT ra csa cea dca ftr ctr g l k r).2) := by
  induction l with
  | nil => intro k r _; simp [distribPhaseT]
  | cons a rest ih =>
      intro k r hr
      have h1 : r ≤ (convStepT ra csa cea dca ftr ctr a k r).2 :=
        convStepT_snd_ge ra csa cea dca ftr ctr a k r
      have h2 : (convStepT ra csa cea dca ftr ctr a k r).2 ≤
          (convStepT ra csa cea dca ftr ctr a k r).2 * (1 + g) := by
        nlinarith
      simp only [distribPhaseT]
      exact List.chain'_cons.mpr ⟨by linarith, ih _ _ (by linarith)⟩

theorem distribPhaseT_snd_zero_nowindow (ra csa cea : ℤ) (dca ftr ctr g : ℚ)
    (l : List ℤ) (hl : ∀ a ∈ l, ¬(csa ≤ a ∧ a ≤ cea)) :
    ∀ k r : ℚ, r = 0 →
      ∀ x ∈ (distribPhaseT ra csa cea dca ftr ctr g l k r).2, x = 0 := by
  induction l with
  | nil => intro k r _ x hx; simp [distribPhaseT] at hx
  | cons a rest ih =>
      intro k r hr x hx
      simp only [distribPhaseT,
        convStepT_nowindow ra csa cea dca ftr ctr a k r (hl a (by simp)),
        List.mem_cons] at hx
      rcases hx with rfl | hx
      · rw [hr]; ring
      · exact ih (fun b hb => hl b (by simp [hb])) _ _ (by rw [hr]; ring) x hx

theorem distribPhaseT_snd_zero_dca (ra csa cea : ℤ) (ftr ctr g : ℚ)
    (hg : 0 ≤ g) (l : List ℤ) :
    ∀ k r : ℚ, 0 ≤ k → r = 0 →
      ∀ x ∈ (distribPhaseT ra csa cea 0 ftr ctr g l k r).2, x = 0 := by
  induction l with
  | nil => intro k r _ _ x hx; simp [distribPhaseT] at hx
  | cons a rest ih =>
      intro k r hk hr x hx
      simp only [distribPhaseT,
        convStepT_dca_zero ra csa cea ftr ctr a k r hk, List.mem_cons] at hx
      rcases hx with rfl | hx
      · rw [hr]; ring
      · exact ih _ _ (mul_nonneg hk (by linarith)) (by rw [hr]; ring) x hx

theorem distribPhaseT_fst_const (ra csa cea : ℤ) (dca ftr ctr : ℚ) (l : List ℤ)
    (hstep : ∀ a ∈ l, ∀ k' r' : ℚ, 0 ≤ k' →
      convStepT ra csa cea dca ftr ctr a k' r' = (k', r')) :
    ∀ k r : ℚ, 0 ≤ k →
      ∀ x ∈ (distribPhaseT ra csa cea dca ftr ctr 0 l k r).1, x = k := by
  induction l with
  | nil => intro k r _ x hx; simp [distribPhaseT] at hx
  | cons a rest ih =>
      intro k r hk x hx
      simp only [distribPhaseT, hstep a (by simp) k r hk, List.mem_cons] at hx
      rcases hx with rfl | hx
      · ring
      · have := ih (fun b hb => hstep b (by simp [hb])) k (r * (1 + 0)) hk x
        rw [show k * (1 + 0) = k by ring] at hx
        exact this hx

/-! ### Facts about the accumulation step -/

theorem iterate_accumStep_nonneg (c g : ℚ) (hc : 0 ≤ c) (hg : 0 ≤ g) (b : ℚ)
    (hb : 0 ≤ b) : ∀ n : ℕ, 0 ≤ (accumStep c g)^[n] b := by
  intro n
  induction n with
  | zero => simpa
  | succ m ih =>
      rw [Function.iterate_succ_apply']
      set x := (accumStep c g)^[m] b with hx
      unfold accumStep
      nlinarith

theorem accumStep_zero_zero : accumStep 0 0 = id := by
  funext b
  simp [accumStep]

/-! ### The dead `current_tax_rate` branch -/

theorem convStep_futureOnly (ra csa cea : ℤ) (dca ftr ctr : ℚ) (age : ℤ)
    (k r : ℚ) (h : ra ≤ age) :
    convStep ra csa cea dca ftr ctr age k r =
      convStepFutureOnly csa cea dca ftr age k r := by
  have hage : ¬(age < ra) := not_lt.mpr h
  by_cases hw : csa ≤ age ∧ age ≤ cea
  · by_cases hd : cea - csa + 1 = 0
    · simp [convStep, convStepFutureOnly, hw, hd]
    · simp [convStep, convStepFutureOnly, convStepT, hw, hd, hage]
  · simp [convStep, convStepFutureOnly, hw]

theorem distribPhase_futureOnly (ra csa cea : ℤ) (dca ftr ctr g : ℚ)
    (l : List ℤ) (hl : ∀ a ∈ l, ra ≤ a) :
    ∀ k r : ℚ,
      distribPhase ra csa cea dca ftr ctr g l k r =
        distribPhaseFutureOnly csa cea dca ftr g l k r := by
  induction l with
  | nil => intro k r; rfl
  | cons a rest ih =>
      intro k r
      rw [distribPhase, distribPhaseFutureOnly,
        convStep_futureOnly ra csa cea dca ftr ctr a k r (hl a (by simp))]
      cases convStepFutureOnly csa cea dca ftr a k r with
      | none => rfl
      | some s => simp only [ih (fun b hb => hl b (by simp [hb]))]

/-! ### Claim theorems -/

/-- C1: for every input with `current_age ≤ retirement_age ≤ 91` and
`current_age ≤ 90`, `calculate_roth_conversion` returns three sequences of
equal length `91 - current_age`, and the ages sequence is exactly
`current_age, current_age + 1, ..., 90` (first element `current_age`, last
element `90`, increasing by one at every index). -/
theorem C1_timeline_shape
    (ca ra : ℤ) (bal c g asr pa : ℚ) (ssa : ℤ) (ssam dca : ℚ)
    (csa cea : ℤ) (ftr ctr : ℚ)
    (h1 : ca ≤ ra) (h2 : ra ≤ 91) (h3 : ca ≤ 90) :
    ∃ ages p q,
      calculate_roth_conversion ca ra bal c g asr pa ssa ssam dca csa cea ftr ctr
        = some (ages, p, q) ∧
      ages.length = (91 - ca).toNat ∧
      p.length = (91 - ca).toNat ∧
      q.length = (91 - ca).toNat ∧
      (∀ i : ℕ, i < (91 - ca).toNat → ages[i]? = some (ca + (i : ℤ))) ∧
      ages[0]? = some ca ∧
      ages[(91 - ca).toNat - 1]? = some 90 := by
  refine ⟨_, _, _,
    calculate_roth_conversion_eq ca ra bal c g asr pa ssa ssam dca csa cea ftr ctr,
    pyRange_length ca 91, ?_, ?_, ?_, ?_, ?_⟩
  · rw [List.length_append, List.length_map, List.length_range,
      distribPhaseT_length_fst, pyRange_length]
    omega
  · rw [List.length_append, List.length_replicate,
      distribPhaseT_length_snd, pyRange_length]
    omega
  · intro i hi
    exact pyRange_getElem? ca 91 i (by omega)
  · have h0 := pyRange_getElem? ca 91 0 (by omega)
    simpa using h0
  · have hlast := pyRange_getElem? ca 91 ((91 - ca).toNat - 1) (by omega)
    rw [hlast]
    congr 1
    omega

/-- Witness for C1 at a concrete input. -/
theorem C1_timeline_shape_witness :
    ∃ ages p q,
      calculate_roth_conversion 88 89 0 0 0 0 0 0 0 0 0 0 0 0
        = some (ages, p, q) ∧
      ages.length = ((91 : ℤ) - 88).toNat ∧
      p.length = ((91 : ℤ) - 88).toNat ∧
      q.length = ((91 : ℤ) - 88).toNat ∧
      (∀ i : ℕ, i < ((91 : ℤ) - 88).toNat → ages[i]? = some (88 + (i : ℤ))) ∧
      ages[0]? = some 88 ∧
      ages[((91 : ℤ) - 88).toNat - 1]? = some 90 :=
  C1_timeline_shape 88 89 0 0 0 0 0 0 0 0 0 0 0 0
    (by decide) (by decide) (by decide)

/-- C2: under the data-model constraints (`growth_rate ≥ 0`,
`annual_contribution ≥ 0`, `current_balance_pretax ≥ 0`), every element of the
returned pre-tax balance sequence is nonnegative. -/
theorem C2_pretax_never_negative
    (ca ra : ℤ) (bal c g asr pa : ℚ) (ssa : ℤ) (ssam dca : ℚ)
    (csa cea : ℤ) (ftr ctr : ℚ)
    (hg : 0 ≤ g) (hc : 0 ≤ c) (hb : 0 ≤ bal) :
    ∃ ages p q,
      calculate_roth_conversion ca ra bal c g asr pa ssa ssam dca csa cea ftr ctr
        = some (ages, p, q) ∧ ∀ x ∈ p, 0 ≤ x := by
  refine ⟨_, _, _,
    calculate_roth_conversion_eq ca ra bal c g asr pa ssa ssam dca csa cea ftr ctr,
    ?_⟩
  intro x hx
  rw [List.mem_append] at hx
  rcases hx with hx | hx
  · rcases List.mem_map.mp hx with ⟨i, _, rfl⟩
    exact iterate_accumStep_nonneg c g hc hg bal hb (i + 1)
  · exact distribPhaseT_fst_nonneg ra csa cea dca ftr ctr g hg _ _ _
      (iterate_accumStep_nonneg c g hc hg bal hb _) x hx

/-- Witness for C2 at a concrete input. -/
theorem C2_pretax_never_negative_witness :
    ∃ ages p q,
      calculate_roth_conversion 30 65 100 10 (1/10) 0 0 67 0 50 60 70 (1/4) (1/5)
        = some (ages, p, q) ∧ ∀ x ∈ p, 0 ≤ x :=
  C2_pretax_never_negative 30 65 100 10 (1/10) 0 0 67 0 50 60 70 (1/4) (1/5)
    (by norm_num) (by norm_num) (by norm_num)

/-- C3: in the distribution/conversion phase the `current_tax_rate` branch is
dead: the whole computation agrees with the variant in which the tax is always
`annual_conversion * future_tax_rate`, and hence the result does not depend on
`current_tax_rate` at all. -/
theorem C3_current_tax_rate_unreachable
    (ca ra : ℤ) (bal c g asr pa : ℚ) (ssa : ℤ) (ssam dca : ℚ)
    (csa cea : ℤ) (ftr ctr : ℚ) :
    calculate_roth_conversion ca ra bal c g asr pa ssa ssam dca csa cea ftr ctr =
      calculate_roth_conversion_future_only ca ra bal c g asr pa ssa ssam dca
        csa cea ftr := by
  simp only [calculate_roth_conversion, calculate_roth_conversion_future_only]
  rw [distribPhase_futureOnly ra csa cea dca ftr ctr g (pyRange ra 91)
    (fun a ha => (mem_pyRange.mp ha).1)]

/-- C4: when `conversion_start_age ≤ conversion_end_age`, the division in the
conversion branch is safe: the computation returns `some` result, never the
`ZeroDivisionError` value `none`. -/
theorem C4_division_safe
    (ca ra : ℤ) (bal c g asr pa : ℚ) (ssa : ℤ) (ssam dca : ℚ)
    (csa cea : ℤ) (ftr ctr : ℚ) (h : csa ≤ cea) :
    (calculate_roth_conversion ca ra bal c g asr pa ssa ssam dca csa cea
      ftr ctr).isSome = true := by
  rw [calculate_roth_conversion_eq]
  rfl

/-- Witness for C4 at a concrete input. -/
theorem C4_division_safe_witness :
    (calculate_roth_conversion 30 65 100 10 (1/10) 0 0 67 0 50 60 70 (1/4)
      (1/5)).isSome = true :=
  C4_division_safe 30 65 100 10 (1/10) 0 0 67 0 50 60 70 (1/4) (1/5) (by decide)

/-- C5: with an inverted conversion window (`conversion_end_age <
conversion_start_age`), the function still returns normally (no error, no
division by zero: the conversion branch runs zero times) and the post-tax
balance sequence is identically zero. -/
theorem C5_inverted_window_all_zero
    (ca ra : ℤ) (bal c g asr pa : ℚ) (ssa : ℤ) (ssam dca : ℚ)
    (csa cea : ℤ) (ftr ctr : ℚ) (h : cea < csa) :
    ∃ ages p q,
      calculate_roth_conversion ca ra bal c g asr pa ssa ssam dca csa cea ftr ctr
        = some (ages, p, q) ∧ ∀ x ∈ q, x = 0 := by
  refine ⟨_, _, _,
    calculate_roth_conversion_eq ca ra bal c g asr pa ssa ssam dca csa cea ftr ctr,
    ?_⟩
  intro x hx
  rw [List.mem_append] at hx
  rcases hx with hx | hx
  · exact List.eq_of_mem_replicate hx
  · exact distribPhaseT_snd_zero_nowindow ra csa cea dca ftr ctr g _
      (by intro a _ hw; omega) _ _ rfl x hx

/-- Witness for C5 at a concrete input (window 60..59, one year inverted). -/
theorem C5_inverted_window_all_zero_witness :
    ∃ ages p q,
      calculate_roth_conversion 30 65 100 10 (1/10) 0 0 67 0 50 60 59 (1/4) (1/5)
        = some (ages, p, q) ∧ ∀ x ∈ q, x = 0 :=
  C5_inverted_window_all_zero 30 65 100 10 (1/10) 0 0 67 0 50 60 59 (1/4) (1/5)
    (by decide)

/-- C6: with `desired_conversion_amount = 0` and otherwise valid inputs, the
post-tax balance sequence is identically zero. -/
theorem C6_zero_conversion_all_zero
    (ca ra : ℤ) (bal c g asr pa : ℚ) (ssa : ℤ) (ssam dca : ℚ)
    (csa cea : ℤ) (ftr ctr : ℚ)
    (hdca : dca = 0) (hg : 0 ≤ g) (hc : 0 ≤ c) (hb : 0 ≤ bal) :
    ∃ ages p q,
      calculate_roth_conversion ca ra bal c g asr pa ssa ssam dca csa cea ftr ctr
        = some (ages, p, q) ∧ ∀ x ∈ q, x = 0 := by
  subst hdca
  refine ⟨_, _, _,
    calculate_roth_conversion_eq ca ra bal c g asr pa ssa ssam 0 csa cea ftr ctr,
    ?_⟩
  intro x hx
  rw [List.mem_append] at hx
  rcases hx with hx | hx
  · exact List.eq_of_mem_replicate hx
  · exact distribPhaseT_snd_zero_dca ra csa cea ftr ctr g hg _ _ _
      (iterate_accumStep_nonneg c g hc hg bal hb _) rfl x hx

/-- Witness for C6 at a concrete input. -/
theorem C6_zero_conversion_all_zero_witness :
    ∃ ages p q,
      calculate_roth_conversion 30 65 100 10 (1/10) 0 0 67 0 0 60 70 (1/4) (1/5)
        = some (ages, p, q) ∧ ∀ x ∈ q, x = 0 :=
  C6_zero_conversion_all_zero 30 65 100 10 (1/10) 0 0 67 0 0 60 70 (1/4) (1/5)
    rfl (by norm_num) (by norm_num) (by norm_num)

/-- C8: with zero growth, zero contributions, and a conversion window that
cannot touch the distribution phase (ends before retirement, starts after 90,
or converts a zero amount), the pre-tax balance sequence is constantly the
initial balance. -/
theorem C8_pretax_constant
    (ca ra : ℤ) (bal c g asr pa : ℚ) (ssa : ℤ) (ssam dca : ℚ)
    (csa cea : ℤ) (ftr ctr : ℚ)
    (hg : g = 0) (hc : c = 0) (hb : 0 ≤ bal)
    (h : cea < ra ∨ 90 < csa ∨ dca = 0) :
    ∃ ages p q,
      calculate_roth_conversion ca ra bal c g asr pa ssa ssam dca csa cea ftr ctr
        = some (ages, p, q) ∧ ∀ x ∈ p, x = bal := by
  subst hg; subst hc
  refine ⟨_, _, _,
    calculate_roth_conversion_eq ca ra bal 0 0 asr pa ssa ssam dca csa cea ftr ctr,
    ?_⟩
  have hiter : ∀ n : ℕ, (accumStep 0 0)^[n] bal = bal := by
    intro n
    rw [accumStep_zero_zero, Function.iterate_id, id]
  intro x hx
  rw [List.mem_append] at hx
  rcases hx with hx | hx
  · rcases List.mem_map.mp hx with ⟨i, _, rfl⟩
    exact hiter (i + 1)
  · rw [hiter] at hx
    refine distribPhaseT_fst_const ra csa cea dca ftr ctr _ ?_ bal _ hb x hx
    intro a ha k' r' hk'
    rcases h with h | h | h
    · refine convStepT_nowindow ra csa cea dca ftr ctr a k' r' ?_
      have hra := (mem_pyRange.mp ha).1
      intro hw
      omega
    · refine convStepT_nowindow ra csa cea dca ftr ctr a k' r' ?_
      have h91 := (mem_pyRange.mp ha).2
      intro hw
      omega
    · subst h
      exact convStepT_dca_zero ra csa cea ftr ctr a k' r' hk'

/-- Witness for C8 at a concrete input (window 50..55 ends before
retirement at 65). -/
theorem C8_pretax_constant_witness :
    ∃ ages p q,
      calculate_roth_conversion 30 65 100 0 0 0 0 67 0 50 50 55 (1/4) (1/5)
        = some (ages, p, q) ∧ ∀ x ∈ p, x = 100 :=
  C8_pretax_constant 30 65 100 0 0 0 0 67 0 50 50 55 (1/4) (1/5)
    rfl rfl (by norm_num) (Or.inl (by decide))

/-- C9: the four collected-but-unused fields (`annual_spending_in_retirement`,
`pension_amount`, `social_security_age`, `social_security_amount`) have no
influence: two calls differing only in those fields return identical results. -/
theorem C9_unused_fields_no_influence
    (ca ra : ℤ) (bal c g asr pa : ℚ) (ssa : ℤ) (ssam : ℚ)
    (asr' pa' : ℚ) (ssa' : ℤ) (ssam' : ℚ) (dca : ℚ) (csa cea : ℤ)
    (ftr ctr : ℚ) :
    calculate_roth_conversion ca ra bal c g asr pa ssa ssam dca csa cea ftr ctr =
      calculate_roth_conversion ca ra bal c g asr' pa' ssa' ssam' dca csa cea
        ftr ctr := rfl

/-- C10: with nonnegative growth the post-tax balance sequence is
non-decreasing: each year adds a clamped-nonnegative net conversion and then
grows by a factor `1 + growth_rate ≥ 1`. -/
theorem C10_posttax_monotone
    (ca ra : ℤ) (bal c g asr pa : ℚ) (ssa : ℤ) (ssam dca : ℚ)
    (csa cea : ℤ) (ftr ctr : ℚ) (hg : 0 ≤ g) :
    ∃ ages p q,
      calculate_roth_conversion ca ra bal c g asr pa ssa ssam dca csa cea ftr ctr
        = some (ages, p, q) ∧ List.Chain' (· ≤ ·) q := by
  refine ⟨_, _, _,
    calculate_roth_conversion_eq ca ra bal c g asr pa ssa ssam dca csa cea ftr ctr,
    ?_⟩
  have hchain := distribPhaseT_snd_chain ra csa cea dca ftr ctr g hg
    (pyRange ra 91) ((accumStep c g)^[(ra - ca).toNat] bal) 0 le_rfl
  rw [List.chain'_append]
  refine ⟨List.chain'_replicate_of_rel _ le_rfl, (List.chain'_cons'.mp hchain).2, ?_⟩
  intro x hx y hy
  have hx0 : x = 0 := List.eq_of_mem_replicate (List.mem_of_mem_getLast? hx)
  rw [hx0]
  exact (List.chain'_cons'.mp hchain).1 y hy

/-- Witness for C10 at a concrete input. -/
theorem C10_posttax_monotone_witness :
    ∃ ages p q,
      calculate_roth_conversion 30 65 100 10 (1/10) 0 0 67 0 50 60 70 (1/4) (1/5)
        = some (ages, p, q) ∧ List.Chain' (· ≤ ·) q :=
  C10_posttax_monotone 30 65 100 10 (1/10) 0 0 67 0 50 60 70 (1/4) (1/5)
    (by norm_num)

/-! ### Lemmas for the concrete scenario of C7 -/

theorem accumC7_grow : ∀ n : ℕ, (200000 : ℚ) ≤ (accumStep 19000 (3/50))^[n] 200000 := by
  intro n
  induction n with
  | zero => simp
  | succ m ih =>
      rw [Function.iterate_succ_apply']
      set x := (accumStep 19000 (3/50))^[m] (200000:ℚ) with hx
      unfold accumStep
      nlinarith

theorem convStepT_C7 (age : ℤ) (h1 : 65 ≤ age) (h2 : age ≤ 70) (k r : ℚ)
    (hk : (5300000/33 : ℚ) ≤ k) :
    convStepT 65 60 70 100000 (1/4) (11/50) age k r =
      (k - 100000 / 11, r + 100000 / 11 * (1 - 1/4)) := by
  have hw : (60:ℤ) ≤ age ∧ age ≤ 70 := ⟨by omega, h2⟩
  have h11 : (((70:ℤ) - 60 + 1 : ℤ) : ℚ) = 11 := by norm_num
  have hlt : ¬((100000 : ℚ) / 11 > k) := by
    have h0 : (100000 : ℚ) / 11 ≤ 5300000 / 33 := by norm_num
    linarith
  have hage : ¬(age < (65:ℤ)) := by omega
  have hnet : ¬((100000:ℚ)/11 - 100000/11 * (1/4) < 0) := by norm_num
  simp only [convStepT, if_pos hw, h11, if_neg hlt, if_neg hage, if_neg hnet]
  exact Prod.ext rfl (by ring)

theorem convStepT_C7_fst (age : ℤ) (h1 : 65 ≤ age) (h2 : age ≤ 70) (k r : ℚ)
    (hk : (5300000/33 : ℚ) ≤ k) :
    (convStepT 65 60 70 100000 (1/4) (11/50) age k r).1 = k - 100000 / 11 := by
  rw [convStepT_C7 age h1 h2 k r hk]

theorem convStepT_C7_snd (age : ℤ) (h1 : 65 ≤ age) (h2 : age ≤ 70) (k r : ℚ)
    (hk : (5300000/33 : ℚ) ≤ k) :
    (convStepT 65 60 70 100000 (1/4) (11/50) age k r).2 =
      r + 100000 / 11 * (1 - 1/4) := by
  rw [convStepT_C7 age h1 h2 k r hk]

theorem distribPhaseT_cons (ra csa cea : ℤ) (dca ftr ctr g : ℚ)
    (a : ℤ) (rest : List ℤ) (k r : ℚ) :
    distribPhaseT ra csa cea dca ftr ctr g (a :: rest) k r =
      ((convStepT ra csa cea dca ftr ctr a k r).1 * (1 + g) ::
        (distribPhaseT ra csa cea dca ftr ctr g rest
          ((convStepT ra csa cea dca ftr ctr a k r).1 * (1 + g))
          ((convStepT ra csa cea dca ftr ctr a k r).2 * (1 + g))).1,
       (convStepT ra csa cea dca ftr ctr a k r).2 * (1 + g) ::
        (distribPhaseT ra csa cea dca ftr ctr g rest
          ((convStepT ra csa cea dca ftr ctr a k r).1 * (1 + g))
          ((convStepT ra csa cea dca ftr ctr a k r).2 * (1 + g))).2) := by
  simp only [distribPhaseT]

theorem distribPhaseT_getElem_zero (ra csa cea : ℤ) (dca ftr ctr g : ℚ)
    (a : ℤ) (rest : List ℤ) (k r : ℚ) :
    (distribPhaseT ra csa cea dca ftr ctr g (a :: rest) k r).1[0]? =
      some ((convStepT ra csa cea dca ftr ctr a k r).1 * (1 + g)) ∧
    (distribPhaseT ra csa cea dca ftr ctr g (a :: rest) k r).2[0]? =
      some ((convStepT ra csa cea dca ftr ctr a k r).2 * (1 + g)) := by
  constructor <;> rw [distribPhaseT_cons] <;> simp

theorem distribPhaseT_getElem_succ (ra csa cea : ℤ) (dca ftr ctr g : ℚ) :
    ∀ (l : List ℤ) (k r : ℚ) (j : ℕ), j + 1 < l.length →
      ∃ x y a,
        (distribPhaseT ra csa cea dca ftr ctr g l k r).1[j]? = some x ∧
        (distribPhaseT ra csa cea dca ftr ctr g l k r).2[j]? = some y ∧
        l[j + 1]? = some a ∧
        (distribPhaseT ra csa cea dca ftr ctr g l k r).1[j + 1]? =
          some ((convStepT ra csa cea dca ftr ctr a x y).1 * (1 + g)) ∧
        (distribPhaseT ra csa cea dca ftr ctr g l k r).2[j + 1]? =
          some ((convStepT ra csa cea dca ftr ctr a x y).2 * (1 + g)) := by
  intro l
  induction l with
  | nil => intro k r j h; simp at h
  | cons a rest ih =>
      intro k r j h
      match j with
      | 0 =>
          match rest, h with
          | b :: rest', _ =>
              refine ⟨(convStepT ra csa cea dca ftr ctr a k r).1 * (1 + g),
                (convStepT ra csa cea dca ftr ctr a k r).2 * (1 + g), b,
                ?_, ?_, by simp, ?_, ?_⟩
              · rw [distribPhaseT_cons]
                simp
              · rw [distribPhaseT_cons]
                simp
              · rw [distribPhaseT_cons]
                simp only [List.getElem?_cons_succ]
                exact (distribPhaseT_getElem_zero ra csa cea dca ftr ctr g b rest' _ _).1
              · rw [distribPhaseT_cons]
                simp only [List.getElem?_cons_succ]
                exact (distribPhaseT_getElem_zero ra csa cea dca ftr ctr g b rest' _ _).2
      | j' + 1 =>
          have h' : j' + 1 < rest.length := by simpa using h
          obtain ⟨x, y, a', h1', h2', h3', h4', h5'⟩ :=
            ih ((convStepT ra csa cea dca ftr ctr a k r).1 * (1 + g))
              ((convStepT ra csa cea dca ftr ctr a k r).2 * (1 + g)) j' h'
          refine ⟨x, y, a', ?_, ?_, ?_, ?_, ?_⟩
          · rw [distribPhaseT_cons]
            simpa using h1'
          · rw [distribPhaseT_cons]
            simpa using h2'
          · simpa using h3'
          · rw [distribPhaseT_cons]
            simpa using h4'
          · rw [distribPhaseT_cons]
            simpa using h5'

theorem distribPhaseT_C7_inv :
    ∀ (l : List ℤ), (∀ a ∈ l, 65 ≤ a) →
      ∀ k r : ℚ, (5300000/33 : ℚ) ≤ k →
        ∀ x ∈ (distribPhaseT 65 60 70 100000 (1/4) (11/50) (3/50) l k r).1,
          (5300000/33 : ℚ) ≤ x := by
  intro l
  induction l with
  | nil => intro _ k r _ x hx; simp [distribPhaseT] at hx
  | cons a rest ih =>
      intro hl k r hk x hx
      have ha : 65 ≤ a := hl a (by simp)
      have hstep : (5300000/33 : ℚ) ≤
          (convStepT 65 60 70 100000 (1/4) (11/50) a k r).1 * (1 + 3/50) := by
        by_cases h70 : a ≤ 70
        · rw [convStepT_C7_fst a ha h70 k r hk]
          nlinarith
        · rw [convStepT_nowindow 65 60 70 100000 (1/4) (11/50) a k r (by omega)]
          show (5300000/33 : ℚ) ≤ k * (1 + 3/50)
          nlinarith
      simp only [distribPhaseT, List.mem_cons] at hx
      rcases hx with rfl | hx
      · exact hstep
      · exact ih (fun b hb => hl b (by simp [hb])) _ _ hstep x hx

/-- C7: in the concrete scenario (`current_age = 40`, `retirement_age = 65`,
balance 200000, contributions 19000, growth 6%, conversion of 100000 over the
window 60..70, future tax 25%, current tax 22%), the sequences have length 51,
the pre-tax balance at age 64 (index 24) is the 25-fold iterate of
`b ↦ (b + 19000) * 1.06` from 200000, and in each conversion year 65..70
(indices 25..30) a gross `100000/11` leaves the pre-tax balance while the
net `100000/11 * (1 - 0.25)` (taxed at the future rate 25%) enters the
post-tax balance, both then growing by 6%. -/
theorem C7_concrete_scenario :
    ∃ ages p q,
      calculate_roth_conversion 40 65 200000 19000 (3/50) 60000 0 67 25000
          100000 60 70 (1/4) (11/50) = some (ages, p, q) ∧
      ages.length = 51 ∧ p.length = 51 ∧ q.length = 51 ∧
      p[24]? = some ((accumStep 19000 (3/50))^[25] 200000) ∧
      (∀ i : ℕ, i < 31 → 25 ≤ i →
        ∃ x y, p[i - 1]? = some x ∧ q[i - 1]? = some y ∧
          p[i]? = some ((x - 100000 / 11) * (1 + 3/50)) ∧
          q[i]? = some ((y + 100000 / 11 * (1 - 1/4)) * (1 + 3/50))) := by
  have h2540 : ((65:ℤ) - 40).toNat = 25 := by decide
  have h2665 : ((91:ℤ) - 65).toNat = 26 := by decide
  have h5140 : ((91:ℤ) - 40).toNat = 51 := by decide
  refine ⟨_, _, _,
    calculate_roth_conversion_eq 40 65 200000 19000 (3/50) 60000 0 67 25000
      100000 60 70 (1/4) (11/50), ?_, ?_, ?_, ?_, ?_⟩
  · rw [pyRange_length, h5140]
  · rw [List.length_append, List.length_map, List.length_range,
      distribPhaseT_length_fst, pyRange_length, h2540, h2665]
  · rw [List.length_append, List.length_replicate,
      distribPhaseT_length_snd, pyRange_length, h2540, h2665]
  · rw [List.getElem?_append_left
        (by rw [List.length_map, List.length_range, h2540]; omega),
      List.getElem?_map, List.getElem?_range (by rw [h2540]; omega),
      Option.map_some']
  · simp only [h2540]
    intro i hi31 hi25
    set f := accumStep 19000 (3/50) with hf
    set k0 := f^[25] (200000:ℚ) with hk0def
    set A := (List.range 25).map (fun i => f^[i + 1] (200000:ℚ)) with hAdef
    set D := distribPhaseT 65 60 70 100000 (1/4) (11/50) (3/50)
      (pyRange 65 91) k0 0 with hDdef
    have hAlen : A.length = 25 := by
      rw [hAdef]; simp
    have hk0ge : (5300000/33 : ℚ) ≤ k0 := by
      rw [hk0def, hf]
      exact le_trans (by norm_num) (accumC7_grow 25)
    have hinv : ∀ x ∈ D.1, (5300000/33 : ℚ) ≤ x := by
      rw [hDdef]
      exact distribPhaseT_C7_inv (pyRange 65 91)
        (fun a ha => (mem_pyRange.mp ha).1) k0 0 hk0ge
    have hP : ∀ t : ℕ, 25 ≤ t → (A ++ D.1)[t]? = D.1[t - 25]? := by
      intro t ht
      rw [List.getElem?_append_right (by rw [hAlen]; omega), hAlen]
    have hQ : ∀ t : ℕ, 25 ≤ t →
        (List.replicate 25 (0:ℚ) ++ D.2)[t]? = D.2[t - 25]? := by
      intro t ht
      rw [List.getElem?_append_right (by rw [List.length_replicate]; omega),
        List.length_replicate]
    have hApart : ∀ t : ℕ, t < 25 → (A ++ D.1)[t]? = some (f^[t + 1] 200000) := by
      intro t ht
      rw [List.getElem?_append_left (by rw [hAlen]; omega), hAdef,
        List.getElem?_map, List.getElem?_range ht]
      rfl
    have hRpart : ∀ t : ℕ, t < 25 →
        (List.replicate 25 (0:ℚ) ++ D.2)[t]? = some 0 := by
      intro t ht
      rw [List.getElem?_append_left (by rw [List.length_replicate]; omega),
        List.getElem?_replicate, if_pos ht]
    have hcons65 : pyRange 65 91 = 65 :: pyRange 66 91 := by decide
    by_cases hi : i = 25
    · subst hi
      refine ⟨k0, 0, ?_, ?_, ?_, ?_⟩
      · rw [hApart 24 (by omega), hk0def]
      · exact hRpart 24 (by omega)
      · rw [hP 25 le_rfl]
        simp only [Nat.sub_self]
        rw [hDdef, hcons65]
        rw [(distribPhaseT_getElem_zero 65 60 70 100000 (1/4) (11/50) (3/50)
          65 (pyRange 66 91) k0 0).1]
        rw [convStepT_C7_fst 65 (by decide) (by decide) k0 0 hk0ge]
      · rw [hQ 25 le_rfl]
        simp only [Nat.sub_self]
        rw [hDdef, hcons65]
        rw [(distribPhaseT_getElem_zero 65 60 70 100000 (1/4) (11/50) (3/50)
          65 (pyRange 66 91) k0 0).2]
        rw [convStepT_C7_snd 65 (by decide) (by decide) k0 0 hk0ge]
    · have h26 : 26 ≤ i := by omega
      obtain ⟨x, y, a, hx, hy, ha, hp4, hq5⟩ :=
        distribPhaseT_getElem_succ 65 60 70 100000 (1/4) (11/50) (3/50)
          (pyRange 65 91) k0 0 (i - 26) (by rw [pyRange_length, h2665]; omega)
      have ha2 := pyRange_getElem? 65 91 (i - 26 + 1) (by rw [h2665]; omega)
      rw [ha] at ha2
      have haval : a = 65 + ((i - 26 + 1 : ℕ) : ℤ) := Option.some.inj ha2
      have hage1 : 65 ≤ a := by omega
      have hage2 : a ≤ 70 := by omega
      have hxge : (5300000/33 : ℚ) ≤ x := by
        refine hinv x ?_
        rw [hDdef]
        exact List.getElem?_mem hx
      refine ⟨x, y, ?_, ?_, ?_, ?_⟩
      · rw [hP (i - 1) (by omega), show i - 1 - 25 = i - 26 by omega, hDdef]
        exact hx
      · rw [hQ (i - 1) (by omega), show i - 1 - 25 = i - 26 by omega, hDdef]
        exact hy
      · rw [hP i (by omega), show i - 25 = i - 26 + 1 by omega, hDdef, hp4]
        rw [convStepT_C7_fst a hage1 hage2 x y hxge]
      · rw [hQ i (by omega), show i - 25 = i - 26 + 1 by omega, hDdef, hq5]
        rw [convStepT_C7_snd a hage1 hage2 x y hxge]
